import Mathlib

/-!
Verification of the heuristic text parser and store operations of the
AI Money Manager backend (src/main.py, src/schemas.py).

Strings are embedded as `List Char`.  Python's `str.strip`, `str.splitlines`,
`str.split`, slicing, and the concrete regular expressions used by
`parse_text` are each translated into executable Lean functions.  Monetary
values are represented exactly as rationals (the Python code goes through
`float`, but every literal the amount regexes can match is a decimal numeral
with exactly two fractional digits, which we keep exact).
-/

/-- Characters treated as whitespace by Python's `str.strip()` (no argument)
and by the regex class `\s` on `str` patterns: the Unicode whitespace set. -/
def isPySpace (c : Char) : Bool :=
  c = ' ' || c = '\t' || c = '\n' || c = '\r' ||
  c = Char.ofNat 11 || c = Char.ofNat 12 ||
  c = Char.ofNat 28 || c = Char.ofNat 29 || c = Char.ofNat 30 || c = Char.ofNat 31 ||
  c = Char.ofNat 133 || c = Char.ofNat 160 || c = Char.ofNat 5760 ||
  (Char.ofNat 8192 ≤ c && c ≤ Char.ofNat 8202) ||
  c = Char.ofNat 8232 || c = Char.ofNat 8233 || c = Char.ofNat 8239 ||
  c = Char.ofNat 8287 || c = Char.ofNat 12288

/-- Line boundaries recognised by Python's `str.splitlines()`
(`\r\n` is additionally treated as a single boundary). -/
def isLineBreak (c : Char) : Bool :=
  c = '\n' || c = '\r' ||
  c = Char.ofNat 11 || c = Char.ofNat 12 ||
  c = Char.ofNat 28 || c = Char.ofNat 29 || c = Char.ofNat 30 ||
  c = Char.ofNat 133 || c = Char.ofNat 8232 || c = Char.ofNat 8233

/-- Python `str.strip()`: drop trailing whitespace (via `reverse`/`dropWhile`),
then drop leading whitespace. -/
def pyStrip (cs : List Char) : List Char :=
  ((cs.reverse.dropWhile isPySpace).reverse).dropWhile isPySpace

/-- Python `str.splitlines()`: split at every line boundary, `\r\n` counting as one
boundary; a trailing boundary produces no extra empty line; `"" ↦ []`. -/
def splitlines : List Char → List (List Char)
  | [] => []
  | c :: cs =>
    if isLineBreak c then
      if c = '\r' then
        match cs with
        | b :: bs =>
          if b = '\n' then [] :: splitlines bs else [] :: splitlines (b :: bs)
        | [] => [[]]
      else [] :: splitlines cs
    else
      match splitlines cs with
      | [] => [[c]]
      | l :: ls => (c :: l) :: ls

/-- ASCII decimal digit (the regexes' `[0-9]` and, restricted to ASCII, `\d`). -/
def isDigit (c : Char) : Bool := '0' ≤ c && c ≤ '9'

/-- ASCII letter, used for `[a-z]` under `re.IGNORECASE`. -/
def isAsciiAlpha (c : Char) : Bool :=
  ('a' ≤ c && c ≤ 'z') || ('A' ≤ c && c ≤ 'Z')

/-- ASCII lower-casing, used for the case-insensitive regex matches. -/
def toLowerAscii (c : Char) : Char :=
  if 'A' ≤ c && c ≤ 'Z' then Char.ofNat (c.toNat + 32) else c

/-- Does `needle` (already lower-case) occur, case-insensitively, as a prefix
of `hay`? -/
def startsCI : List Char → List Char → Bool
  | [], _ => true
  | _ :: _, [] => false
  | n :: ns, c :: cs => (toLowerAscii c = n) && startsCI ns cs

/-- Case-insensitive prefix test against a literal keyword. -/
def swCI (w : String) (s : List Char) : Bool :=
  startsCI (w.toList.map toLowerAscii) s

/-- Model of `re.search` with a positional matcher returning the captured group:
try the matcher at every start position, left to right. -/
def reSearch (m : List Char → Option (List Char)) : List Char → Option (List Char)
  | [] => m []
  | c :: rest => m (c :: rest) <|> reSearch m rest

/-- Model of `re.search` used only as a boolean test. -/
def reSearchB (p : List Char → Bool) : List Char → Bool
  | [] => p []
  | c :: rest => p (c :: rest) || reSearchB p rest

/-- Case-insensitive substring occurrence of a literal keyword
(`re.search(w, hay, re.IGNORECASE)` for a plain word `w`). -/
def containsCI (w : String) (hay : List Char) : Bool :=
  reSearchB (swCI w) hay

/-! ### The amount regexes

Pattern 1: `[-+]?\$\s*([0-9]{1,3}(?:,[0-9]{3})*(?:\.[0-9]{2})|[0-9]+(?:\.[0-9]{2}))`
Pattern 2: `[-+]?([0-9]{1,3}(?:,[0-9]{3})*(?:\.[0-9]{2})|[0-9]+(?:\.[0-9]{2}))\s*(?:USD|usd|US\$)?`

Only `m.group(1)` is consumed by the code, so the matchers below return the
text of the first capturing group.  The trailing `\s*(?:USD|usd|US\$)?` of
pattern 2 is entirely optional and lies outside the group, so it can affect
neither whether a search succeeds nor the captured text; it is not modelled. -/

/-- Piece `(?:,[0-9]{3})*`, greedily: the maximal run of `,ddd` groups.  Returns the
consumed characters and the remainder.  (No backtracking is needed: if the
regex engine gave back an iteration, the following `\.` would face the
iteration's `,` and fail.) -/
def commaGroups : List Char → List Char × List Char
  | ',' :: a :: b :: c :: rest =>
    if isDigit a && isDigit b && isDigit c then
      match commaGroups rest with
      | (g, r) => (',' :: a :: b :: c :: g, r)
    else ([], ',' :: a :: b :: c :: rest)
  | cs => ([], cs)

/-- Piece `\.[0-9]{2}`: a dot followed by exactly two digits. -/
def dotTwo : List Char → Option (List Char × List Char)
  | '.' :: a :: b :: rest =>
    if isDigit a && isDigit b then some (['.', a, b], rest) else none
  | _ => none

/-- Exactly `n` digits. -/
def takeDigitsExact : Nat → List Char → Option (List Char × List Char)
  | 0, cs => some ([], cs)
  | n + 1, c :: cs =>
    if isDigit c then (takeDigitsExact n cs).map (fun p => (c :: p.1, p.2)) else none
  | _ + 1, [] => none

/-- First alternative of the amount group with `[0-9]{1,3}` bound to exactly
`k` digits: `[0-9]{k}(?:,[0-9]{3})*\.[0-9]{2}`. -/
def matchAWith (k : Nat) (cs : List Char) : Option (List Char × List Char) :=
  match takeDigitsExact k cs with
  | none => none
  | some (ds, r1) =>
    match commaGroups r1 with
    | (g, r2) =>
      match dotTwo r2 with
      | none => none
      | some (t, r3) => some (ds ++ g ++ t, r3)

/-- Second alternative `[0-9]+\.[0-9]{2}`: maximal digit run, then `.dd`.
(Giving digits back cannot help: the following `\.` would face a digit.) -/
def matchB (cs : List Char) : Option (List Char × List Char) :=
  let ds := cs.takeWhile isDigit
  if ds.isEmpty then none
  else
    match dotTwo (cs.dropWhile isDigit) with
    | some (t, r) => some (ds ++ t, r)
    | none => none

/-- The capturing group of both amount patterns
(`[0-9]{1,3}(?:,[0-9]{3})*\.[0-9]{2}|[0-9]+\.[0-9]{2}`), with the greedy
`{1,3}` tried at width 3, then 2, then 1, then the second alternative. -/
def matchAB (cs : List Char) : Option (List Char × List Char) :=
  matchAWith 3 cs <|> matchAWith 2 cs <|> matchAWith 1 cs <|> matchB cs

/-- Amount pattern 1 anchored at the current position; returns group 1. -/
def amtMatch1At (cs : List Char) : Option (List Char) :=
  let afterSign := match cs with
    | c :: r => if c = '-' || c = '+' then r else cs
    | [] => cs
  match afterSign with
  | '$' :: r => (matchAB (r.dropWhile isPySpace)).map Prod.fst
  | _ => none

/-- Amount pattern 2 anchored at the current position; returns group 1.
If the optional leading sign is consumed and the group fails, the engine
retries without the sign (which then also fails, the sign not being a digit). -/
def amtMatch2At (cs : List Char) : Option (List Char) :=
  match cs with
  | c :: r =>
    if c = '-' || c = '+' then
      (matchAB r).map Prod.fst <|> (matchAB (c :: r)).map Prod.fst
    else (matchAB (c :: r)).map Prod.fst
  | [] => none

/-- Numeric value of a digit string. -/
def natOfDigits (cs : List Char) : Nat :=
  cs.foldl (fun a c => a * 10 + (c.toNat - 48)) 0

/-- Value of a comma-free monetary literal `digits.dd` (`float(amt_str)`,
kept exact as the rational `intpart + fracpart/100`). -/
def moneyVal (cs : List Char) : ℚ :=
  let ip := cs.takeWhile (fun c => c ≠ '.')
  let fp := (cs.dropWhile (fun c => c ≠ '.')).drop 1
  mkRat (natOfDigits ip * 100 + natOfDigits fp) 100

/-- The amount-detection block of `parse_text`: search pattern 1, then
pattern 2; strip commas from group 1 and take `abs(float(...))`. -/
def amountOf (text : List Char) : Option ℚ :=
  match reSearch amtMatch1At text with
  | some g => some |moneyVal (g.filter (fun c => c ≠ ','))|
  | none =>
    match reSearch amtMatch2At text with
    | some g => some |moneyVal (g.filter (fun c => c ≠ ','))|
    | none => none

/-- The scan `re.search(r"(^|\s)-", text)` restricted to the `\s-` alternative:
some character of the text is a whitespace immediately followed by `-`. -/
def hasWsMinus : List Char → Bool
  | a :: b :: rest => (isPySpace a && b = '-') || hasWsMinus (b :: rest)
  | _ => false

/-- The test `re.search(r"(^|\s)-", text) is not None`: a minus sign at the start of
the text or immediately preceded by whitespace. -/
def signNegative (text : List Char) : Bool :=
  (match text with | '-' :: _ => true | _ => false) || hasWsMinus text

/-! ### The date regexes and `datetime.strptime`

Date regex 1: `(\d{4}-\d{2}-\d{2})`
Date regex 2: `(\d{2}/\d{2}/\d{4})`
Date regex 3: `((?:Jan|...|Dec)[a-z]*\s+\d{1,2},?\s+\d{4})`, `re.IGNORECASE`.

Each first match is fed (commas removed) to `datetime.strptime` against the
fixed format list `%Y-%m-%d, %d/%m/%Y, %m/%d/%Y, %b %d %Y, %B %d %Y,
%b %d, %Y, %B %d, %Y`, first success winning.  CPython's `_strptime` turns a
format into a regex: `%Y` is four digits, `%m` is `1[0-2]|0[1-9]|[1-9]`,
`%d` is `3[01]|[12]\d|0[1-9]|[1-9]`, `%b`/`%B` are the case-insensitive
locale month names, literal whitespace becomes `\s+`, the whole string must
be consumed, and the resulting numbers must form a valid `datetime`. -/

structure PDate where
  year : Nat
  month : Nat
  day : Nat
deriving DecidableEq, Repr

/-- Days in a month, with the Gregorian leap-year rule
(`datetime`'s calendar). -/
def daysInMonth (y m : Nat) : Nat :=
  if m = 2 then
    if y % 4 = 0 && (y % 100 ≠ 0 || y % 400 = 0) then 29 else 28
  else if m = 4 || m = 6 || m = 9 || m = 11 then 30
  else 31

/-- The `datetime(year, month, day)` validation: `ValueError` outside these
bounds. -/
def mkValidDate (y m d : Nat) : Option PDate :=
  if 1 ≤ y && y ≤ 9999 && 1 ≤ m && m ≤ 12 && 1 ≤ d && d ≤ daysInMonth y m then
    some ⟨y, m, d⟩
  else none

/-- Exactly `n` digits read as a number (`%Y` with `n = 4`). -/
def takeNum : Nat → Nat → List Char → Option (Nat × List Char)
  | 0, acc, cs => some (acc, cs)
  | n + 1, acc, c :: cs =>
    if isDigit c then takeNum n (acc * 10 + (c.toNat - 48)) cs else none
  | _ + 1, _, [] => none

/-- Directive `%m`: `1[0-2]|0[1-9]|[1-9]`.  The greedy two-digit alternatives are safe
without backtracking here: in every format `%m` is followed by a
non-digit, so a rejected second digit could not satisfy the continuation
either. -/
def parseM : List Char → Option (Nat × List Char)
  | '1' :: c :: rest =>
    if '0' ≤ c && c ≤ '2' then some (10 + (c.toNat - 48), rest)
    else some (1, c :: rest)
  | '0' :: c :: rest =>
    if '1' ≤ c && c ≤ '9' then some (c.toNat - 48, rest) else none
  | c :: rest =>
    if '1' ≤ c && c ≤ '9' then some (c.toNat - 48, rest) else none
  | [] => none

/-- Directive `%d`: `3[01]|[12]\d|0[1-9]|[1-9]` (same remark as for `%m`). -/
def parseD : List Char → Option (Nat × List Char)
  | a :: b :: r =>
    if a = '3' && (b = '0' || b = '1') then some (30 + (b.toNat - 48), r)
    else if (a = '1' || a = '2') && isDigit b then
      some ((a.toNat - 48) * 10 + (b.toNat - 48), r)
    else if a = '0' && ('1' ≤ b && b ≤ '9') then some (b.toNat - 48, r)
    else if '1' ≤ a && a ≤ '9' then some (a.toNat - 48, b :: r)
    else none
  | [a] => if '1' ≤ a && a ≤ '9' then some (a.toNat - 48, []) else none
  | [] => none

/-- A literal character of a format string. -/
def litChar (c : Char) : List Char → Option (List Char)
  | d :: rest => if d = c then some rest else none
  | [] => none

/-- Piece `\s+` (literal whitespace in a format): one or more whitespace characters,
maximal munch (always followed by a digit or letter in these formats). -/
def wsPlus : List Char → Option (List Char)
  | c :: rest => if isPySpace c then some (rest.dropWhile isPySpace) else none
  | [] => none

/-- Case-insensitive match of a (lower-case) month name; returns the rest. -/
def eatNameCI : List Char → List Char → Option (List Char)
  | [], rest => some rest
  | _ :: _, [] => none
  | n :: ns, c :: cs => if toLowerAscii c = n then eatNameCI ns cs else none

/-- Abbreviated month names for `%b` (C locale), in month order. -/
def monthAbbrevs : List (String × Nat) :=
  [("jan", 1), ("feb", 2), ("mar", 3), ("apr", 4), ("may", 5), ("jun", 6),
   ("jul", 7), ("aug", 8), ("sep", 9), ("oct", 10), ("nov", 11), ("dec", 12)]

/-- Full month names for `%B` (C locale), in month order (no name is a
prefix of another, so the trying order is immaterial). -/
def monthFulls : List (String × Nat) :=
  [("january", 1), ("february", 2), ("march", 3), ("april", 4), ("may", 5),
   ("june", 6), ("july", 7), ("august", 8), ("september", 9), ("october", 10),
   ("november", 11), ("december", 12)]

/-- Directives `%b`/`%B`: first month name matching case-insensitively at the front. -/
def parseMonthName : List (String × Nat) → List Char → Option (Nat × List Char)
  | [], _ => none
  | (w, m) :: ws, cs =>
    match eatNameCI w.toList cs with
    | some rest => some (m, rest)
    | none => parseMonthName ws cs

/-- Format `%Y-%m-%d` under `strptime` (full match). -/
def fmtISO (cs : List Char) : Option PDate :=
  match takeNum 4 0 cs with
  | some (y, r0) =>
    match litChar '-' r0 with
    | some r1 =>
      match parseM r1 with
      | some (m, r2) =>
        match litChar '-' r2 with
        | some r3 =>
          match parseD r3 with
          | some (d, []) => mkValidDate y m d
          | _ => none
        | none => none
      | none => none
    | none => none
  | none => none

/-- Format `%d/%m/%Y` under `strptime` (full match). -/
def fmtDMY (cs : List Char) : Option PDate :=
  match parseD cs with
  | some (d, r0) =>
    match litChar '/' r0 with
    | some r1 =>
      match parseM r1 with
      | some (m, r2) =>
        match litChar '/' r2 with
        | some r3 =>
          match takeNum 4 0 r3 with
          | some (y, []) => mkValidDate y m d
          | _ => none
        | none => none
      | none => none
    | none => none
  | none => none

/-- Format `%m/%d/%Y` under `strptime` (full match). -/
def fmtMDY (cs : List Char) : Option PDate :=
  match parseM cs with
  | some (m, r0) =>
    match litChar '/' r0 with
    | some r1 =>
      match parseD r1 with
      | some (d, r2) =>
        match litChar '/' r2 with
        | some r3 =>
          match takeNum 4 0 r3 with
          | some (y, []) => mkValidDate y m d
          | _ => none
        | none => none
      | none => none
    | none => none
  | none => none

/-- Month-name formats under `strptime`: `%b %d %Y`, `%B %d %Y`, or with
`withComma := true` the `%b %d, %Y` / `%B %d, %Y` variants. -/
def fmtMonth (names : List (String × Nat)) (withComma : Bool) (cs : List Char) :
    Option PDate :=
  match parseMonthName names cs with
  | some (m, r0) =>
    match wsPlus r0 with
    | some r1 =>
      match parseD r1 with
      | some (d, r2) =>
        let r2c := if withComma then litChar ',' r2 else some r2
        match r2c with
        | some r3 =>
          match wsPlus r3 with
          | some r4 =>
            match takeNum 4 0 r4 with
            | some (y, []) => mkValidDate y m d
            | _ => none
          | none => none
        | none => none
      | none => none
    | none => none
  | none => none

/-- The fixed ordered format list applied to a candidate (whose commas have
already been removed, per `raw.replace(",", "")`). -/
def strptimeList (raw : List Char) : Option PDate :=
  fmtISO raw <|> fmtDMY raw <|> fmtMDY raw <|>
  fmtMonth monthAbbrevs false raw <|> fmtMonth monthFulls false raw <|>
  fmtMonth monthAbbrevs true raw <|> fmtMonth monthFulls true raw

/-- Date regex 1 `\d{4}-\d{2}-\d{2}` anchored at the current position;
returns the matched text. -/
def isoAt : List Char → Option (List Char)
  | a :: b :: c :: d :: '-' :: e :: f :: '-' :: g :: h :: _ =>
    if isDigit a && isDigit b && isDigit c && isDigit d &&
       isDigit e && isDigit f && isDigit g && isDigit h then
      some [a, b, c, d, '-', e, f, '-', g, h]
    else none
  | _ => none

/-- Date regex 2 `\d{2}/\d{2}/\d{4}` anchored at the current position. -/
def slashAt : List Char → Option (List Char)
  | a :: b :: '/' :: c :: d :: '/' :: e :: f :: g :: h :: _ =>
    if isDigit a && isDigit b && isDigit c && isDigit d &&
       isDigit e && isDigit f && isDigit g && isDigit h then
      some [a, b, '/', c, d, '/', e, f, g, h]
    else none
  | _ => none

/-- The lower-cased three-letter month prefixes of date regex 3. -/
def monthKeys : List (List Char) :=
  (monthAbbrevs.map (fun p => p.1.toList))

/-- Tail `,?\s+\d{4}` of date regex 3, anchored; returns the matched text.
(If the optional comma were consumed and `\s+` failed, retrying without the
comma would make `\s+` face the comma and fail too, so maximal munch on
`,?` is faithful.) -/
def monTail (cs : List Char) : Option (List Char) :=
  let comma := match cs with | ',' :: _ => [','] | _ => ([] : List Char)
  let r := cs.drop comma.length
  match r with
  | c :: rest =>
    if isPySpace c then
      let ws := (c :: rest).takeWhile isPySpace
      let r2 := (c :: rest).dropWhile isPySpace
      match r2 with
      | d1 :: d2 :: d3 :: d4 :: _ =>
        if isDigit d1 && isDigit d2 && isDigit d3 && isDigit d4 then
          some (comma ++ ws ++ [d1, d2, d3, d4])
        else none
      | _ => none
    else none
  | [] => none

/-- Date regex 3 anchored at the current position; returns the matched text
(the original characters, as `m.group(1)` would).  The greedy `\d{1,2}` is
tried at width 2 and then width 1. -/
def monAt (cs : List Char) : Option (List Char) :=
  match cs with
  | a :: b :: c :: r1 =>
    if (monthKeys.any (fun k => k = [toLowerAscii a, toLowerAscii b, toLowerAscii c])) then
      let letters := r1.takeWhile isAsciiAlpha
      let r2 := r1.dropWhile isAsciiAlpha
      let ws := r2.takeWhile isPySpace
      let r3 := r2.dropWhile isPySpace
      if ws.isEmpty then none
      else
        match r3 with
        | d1 :: rest1 =>
          if isDigit d1 then
            match rest1 with
            | d2 :: rest2 =>
              if isDigit d2 then
                match monTail rest2 with
                | some t => some ([a, b, c] ++ letters ++ ws ++ [d1, d2] ++ t)
                | none =>
                  (monTail rest1).map (fun t => [a, b, c] ++ letters ++ ws ++ [d1] ++ t)
              else
                (monTail rest1).map (fun t => [a, b, c] ++ letters ++ ws ++ [d1] ++ t)
            | [] =>
              (monTail rest1).map (fun t => [a, b, c] ++ letters ++ ws ++ [d1] ++ t)
          else none
        | [] => none
    else none
  | _ => none

/-- One candidate's trip through the format list:
`strptime(raw.replace(",", ""), fmt)` for each format in order. -/
def tryRaw (raw : List Char) : Option PDate :=
  strptimeList (raw.filter (fun c => c ≠ ','))

/-- The date-detection block of `parse_text`: for each date regex in order,
take its first match (if any) and run the format list on it; a candidate
that fails every format falls through to the next regex. -/
def extractDate (text : List Char) : Option PDate :=
  match (reSearch isoAt text).bind tryRaw with
  | some d => some d
  | none =>
    match (reSearch slashAt text).bind tryRaw with
    | some d => some d
    | none => (reSearch monAt text).bind tryRaw

/-! ### Description, merchant, direction, and the parser itself -/

/-- The per-line date test of the description filter:
`re.search(r"\d{1,2}/\d{1,2}/\d{2,4}|\d{4}-\d{2}-\d{2}", ln)`.
First the slash alternative, anchored pieces below; existence of two digits
suffices for the trailing `\d{2,4}`. -/
def twoToFourDigits : List Char → Bool
  | a :: b :: _ => isDigit a && isDigit b
  | _ => false

/-- Piece `/\d{2,4}` (end of the slash alternative). -/
def slashThenYear : List Char → Bool
  | '/' :: r => twoToFourDigits r
  | _ => false

/-- Piece `\d{1,2}/\d{2,4}`: one or two digits, a slash, then the year digits. -/
def dayThenYear : List Char → Bool
  | a :: r =>
    isDigit a &&
      ((match r with
        | b :: r2 => isDigit b && slashThenYear r2
        | [] => false) ||
       slashThenYear r)
  | [] => false

/-- Piece `/\d{1,2}/\d{2,4}`. -/
def slashThenDay : List Char → Bool
  | '/' :: r => dayThenYear r
  | _ => false

/-- Pattern `\d{1,2}/\d{1,2}/\d{2,4}` anchored at the current position. -/
def slashLineAt : List Char → Bool
  | a :: r =>
    isDigit a &&
      ((match r with
        | b :: r2 => isDigit b && slashThenDay r2
        | [] => false) ||
       slashThenDay r)
  | [] => false

/-- Pattern `\d{4}-\d{2}-\d{2}` anchored at the current position (boolean form). -/
def isoLineAt (cs : List Char) : Bool :=
  (isoAt cs).isSome

/-- The search `re.search(r"\d{1,2}/\d{1,2}/\d{2,4}|\d{4}-\d{2}-\d{2}", ln)` as used in
the candidate-line filter. -/
def codeLineDate (ln : List Char) : Bool :=
  reSearchB (fun s => slashLineAt s || isoLineAt s) ln

/-- The search `re.search(r"\$|USD|Total|Amount|Balance", ln, re.IGNORECASE)`: an
alternation of literal tokens, matched case-insensitively. -/
def codeLineMoney (ln : List Char) : Bool :=
  reSearchB
    (fun s => swCI "$" s || swCI "USD" s || swCI "Total" s ||
      swCI "Amount" s || swCI "Balance" s) ln

/-- The list `[ln.strip() for ln in text.splitlines() if ln.strip()]`. -/
def pyLines (text : List Char) : List (List Char) :=
  ((splitlines text).map pyStrip).filter (fun l => !l.isEmpty)

/-- The candidate-line loop: keep lines matching neither the date nor the
money/label regex. -/
def candidatesOf (text : List Char) : List (List Char) :=
  (pyLines text).filter (fun ln => !codeLineDate ln && !codeLineMoney ln)

/-- Does the literal separator `" - "` (space, hyphen, space) start here? -/
def sepAt : List Char → Bool
  | c1 :: c2 :: c3 :: _ => c1 = ' ' && c2 = '-' && c3 = ' '
  | _ => false

/-- The prefix `description.split(" - ")[0]`: the characters before the first occurrence
of the literal separator `" - "`. -/
def beforeSep : List Char → List Char
  | [] => []
  | c :: rest => if sepAt (c :: rest) then [] else c :: beforeSep rest

/-- The slice `description.split(" - ")[0][:80]`, with Python's `x or None` coercion of
an empty merchant string to `None`. -/
def merchantOf (d : List Char) : Option (List Char) :=
  let m := (beforeSep d).take 80
  if m.isEmpty then none else some m

/-- The description/merchant block: when there is at least one non-blank
line, the first candidate (or, failing that, the first line) and its
merchant; the `description or ""` / `merchant or None` coercions give
`("", none)` when there is no line at all. -/
def descMerch (text : List Char) : List Char × Option (List Char) :=
  match pyLines text, candidatesOf text with
  | [], _ => ([], none)
  | _ :: _, c0 :: _ => (c0, merchantOf c0)
  | l0 :: _, [] => (l0, merchantOf l0)

/-- The search `re.search(r"refund|credit|reversal|deposit|salary|income", text,
re.IGNORECASE)`. -/
def incomeKw (text : List Char) : Bool :=
  reSearchB
    (fun s => swCI "refund" s || swCI "credit" s || swCI "reversal" s ||
      swCI "deposit" s || swCI "salary" s || swCI "income" s) text

inductive Direction where
  | expense
  | income
deriving DecidableEq, Repr

/-- Direction inference: default `expense`, overridden to `income` by a
negative sign flag or an income keyword. -/
def directionOf (text : List Char) : Direction :=
  let sign : Int := if signNegative text then -1 else 1
  if sign < 0 || incomeKw text then Direction.income else Direction.expense

/-- The parsed-draft shape returned by `POST /api/parse`. -/
structure ParseResult where
  date : PDate
  amount : ℚ
  direction : Direction
  description : List Char
  merchant : Option (List Char)
deriving DecidableEq, Repr

/-- The endpoint body `parse_text` (src/main.py): strip the input, reject empty text with the
HTTP 400 validation error, and otherwise assemble the best-effort draft.
`now` stands for `datetime.now()`, the processing time used when no date is
found in the text. -/
def parse_text (now : PDate) (input : List Char) : Except String ParseResult :=
  if (pyStrip input).isEmpty then Except.error "Text is required"
  else
    Except.ok
      { date := (extractDate (pyStrip input)).getD now
        amount := (amountOf (pyStrip input)).getD 0
        direction := directionOf (pyStrip input)
        description := (descMerch (pyStrip input)).1
        merchant := (descMerch (pyStrip input)).2 }

/-! ### The store operations (`create_transaction`, `setup_defaults`) -/

/-- Request model `TransactionCreate` (src/main.py). -/
structure TransactionCreate where
  date : PDate
  amount : ℚ
  direction : Direction
  description : String
  category_id : Option String
  account_id : Option String
  merchant : Option String
  notes : Option String

/-- The transaction document as persisted. -/
structure StoredTransaction where
  date : PDate
  amount : ℚ
  direction : Direction
  description : String
  category_id : Option String
  account_id : Option String
  merchant : Option String
  notes : Option String

/-- The endpoint body `create_transaction`: `data["amount"] = abs(float(data["amount"]))`;
every other field is stored as submitted. -/
def create_transaction (p : TransactionCreate) : StoredTransaction :=
  { date := p.date, amount := |p.amount|, direction := p.direction,
    description := p.description, category_id := p.category_id,
    account_id := p.account_id, merchant := p.merchant, notes := p.notes }

/-- Category document (src/schemas.py). -/
structure Category where
  name : String
  color : String
  icon : Option String
deriving DecidableEq, Repr

/-- Account document (src/schemas.py). -/
structure Account where
  name : String
  type : String
  currency : String
deriving DecidableEq, Repr

/-- The two collections touched by `setup_defaults`. -/
structure Store where
  category : List Category
  account : List Account
deriving DecidableEq, Repr

/-- The seven seeded categories of `setup_defaults`, in insertion order. -/
def defaultCategories : List Category :=
  [⟨"Groceries", "#22c55e", some "shopping-basket"⟩,
   ⟨"Restaurants", "#f97316", some "utensils"⟩,
   ⟨"Transport", "#06b6d4", some "car"⟩,
   ⟨"Rent", "#6366f1", some "home"⟩,
   ⟨"Utilities", "#14b8a6", some "zap"⟩,
   ⟨"Salary", "#84cc16", some "banknote"⟩,
   ⟨"Other", "#64748b", some "dots"⟩]

/-- The endpoint body `setup_defaults`: seed the seven categories when the category collection
is empty, then the "Cash" account when the account collection is empty. -/
def setup_defaults (s : Store) : Store :=
  let s1 :=
    if s.category.length = 0 then
      { s with category := s.category ++ defaultCategories }
    else s
  if s1.account.length = 0 then
    { s1 with account := s1.account ++ [⟨"Cash", "cash", "USD"⟩] }
  else s1

/-! ### Spec-side definitions

For the description/merchant claim the specification's wording is rendered
separately and compared with the code translation above. -/

/-- Spec-side line filter: the line contains neither a slash-date or
ISO-date substring nor any money/label keyword (currency symbol, "USD",
"Total", "Amount", "Balance", case-insensitive). -/
def specLineKeeps (ln : List Char) : Bool :=
  !(reSearchB slashLineAt ln || reSearchB isoLineAt ln) &&
  !(containsCI "$" ln || containsCI "USD" ln || containsCI "Total" ln ||
    containsCI "Amount" ln || containsCI "Balance" ln)

/-- Spec-side description: the first surviving line, falling back to the
first non-blank line when no line survives the filter. -/
def specDescription (text : List Char) : List Char :=
  match (pyLines text).filter specLineKeeps with
  | d :: _ => d
  | [] => (pyLines text).headD []


/-! ### Helper lemmas -/

instance : DecidableEq (Except String ParseResult)
  | Except.error x, Except.error y =>
    if h : x = y then isTrue (by rw [h])
    else isFalse (fun k => h (Except.error.inj k))
  | Except.ok x, Except.ok y =>
    if h : x = y then isTrue (by rw [h])
    else isFalse (fun k => h (Except.ok.inj k))
  | Except.error _, Except.ok _ => isFalse (fun k => Except.noConfusion k)
  | Except.ok _, Except.error _ => isFalse (fun k => Except.noConfusion k)

theorem dropWhile_head_false {p : Char → Bool} :
    ∀ {l : List Char} {c : Char} {r : List Char},
      l.dropWhile p = c :: r → p c = false := by
  intro l
  induction l with
  | nil => intro c r h; simp [List.dropWhile] at h
  | cons a as ih =>
    intro c r h
    rw [List.dropWhile_cons] at h
    cases hpa : p a with
    | true => rw [hpa] at h; simp at h; exact ih h
    | false =>
      rw [hpa] at h; simp at h
      rcases h with ⟨h1, _⟩
      rw [← h1]; exact hpa

theorem dropWhile_forall_iff (p : Char → Bool) (l : List Char) :
    (∀ c ∈ l.dropWhile p, p c = true) ↔ (∀ c ∈ l, p c = true) := by
  constructor
  · intro h c hc
    have hl := List.takeWhile_append_dropWhile p l
    rw [← hl] at hc
    rcases List.mem_append.mp hc with h1 | h2
    · exact List.mem_takeWhile_imp h1
    · exact h c h2
  · intro h c hc
    exact h c ((List.dropWhile_sublist p).subset hc)

theorem pyStrip_eq_nil_iff (l : List Char) :
    pyStrip l = [] ↔ ∀ c ∈ l, isPySpace c = true := by
  unfold pyStrip
  rw [List.dropWhile_eq_nil_iff]
  constructor
  · intro h c hc
    have h' : ∀ c ∈ l.reverse.dropWhile isPySpace, isPySpace c = true := by
      intro d hd; exact h d (List.mem_reverse.mpr hd)
    exact (dropWhile_forall_iff isPySpace l.reverse).mp h' c (List.mem_reverse.mpr hc)
  · intro h c hc
    have hc2 : c ∈ l.reverse.dropWhile isPySpace := List.mem_reverse.mp hc
    exact h c (List.mem_reverse.mp ((List.dropWhile_sublist _).subset hc2))

theorem pyStrip_head_not_space {l : List Char} {c : Char} {r : List Char}
    (h : pyStrip l = c :: r) : isPySpace c = false := by
  unfold pyStrip at h
  exact dropWhile_head_false h

theorem isLineBreak_isPySpace {c : Char} (h : isLineBreak c = true) :
    isPySpace c = true := by
  unfold isLineBreak at h
  simp only [Bool.or_eq_true, decide_eq_true_eq] at h
  rcases h with ((((((((h | h) | h) | h) | h) | h) | h) | h) | h) | h <;>
    subst h <;> decide

theorem splitlines_cons {c : Char} {cs : List Char} (h : isLineBreak c = false) :
    ∃ l ls, splitlines (c :: cs) = (c :: l) :: ls := by
  rw [splitlines.eq_def]
  simp only [h, Bool.false_eq_true, if_false]
  cases hsl : splitlines cs with
  | nil => exact ⟨[], [], rfl⟩
  | cons l ls => exact ⟨l, ls, rfl⟩

theorem pyLines_cons_ne_nil {c : Char} {r : List Char}
    (hcsp : isPySpace c = false) : pyLines (c :: r) ≠ [] := by
  have hbr : isLineBreak c = false := by
    cases hlb : isLineBreak c
    · rfl
    · rw [isLineBreak_isPySpace hlb] at hcsp; cases hcsp
  obtain ⟨l, ls, hsp⟩ := @splitlines_cons c r hbr
  unfold pyLines
  rw [hsp]
  simp only [List.map_cons, List.filter_cons]
  have hne2 : pyStrip (c :: l) ≠ [] := by
    intro he
    have h3 := (pyStrip_eq_nil_iff (c :: l)).mp he c (List.mem_cons_self c l)
    rw [h3] at hcsp; cases hcsp
  have hie : (!(pyStrip (c :: l)).isEmpty) = true := by
    cases hb : (pyStrip (c :: l)).isEmpty
    · rfl
    · exact absurd (List.isEmpty_iff.mp hb) hne2
  rw [hie]
  simp

theorem mem_pyLines_shape {text d : List Char} (hd : d ∈ pyLines text) :
    d ≠ [] ∧ ∀ {c : Char} {r : List Char}, d = c :: r → isPySpace c = false := by
  unfold pyLines at hd
  rcases List.mem_filter.mp hd with ⟨hmap, hfil⟩
  rcases List.mem_map.mp hmap with ⟨a, _, ha⟩
  constructor
  · intro he
    rw [he] at hfil
    simp at hfil
  · intro c r he
    rw [he] at ha
    exact pyStrip_head_not_space ha

theorem descMerch_cases {text : List Char} (hne : pyLines text ≠ []) :
    (descMerch text).1 ∈ pyLines text ∧
    (descMerch text).2 = merchantOf (descMerch text).1 := by
  unfold descMerch
  rcases hl : pyLines text with _ | ⟨l0, ls⟩
  · exact absurd hl hne
  · rcases hc : candidatesOf text with _ | ⟨c0, cs⟩
    · exact ⟨List.mem_cons_self l0 ls, rfl⟩
    · refine ⟨?_, rfl⟩
      have hmem : c0 ∈ candidatesOf text := by
        rw [hc]; exact List.mem_cons_self c0 cs
      unfold candidatesOf at hmem
      have h2 := List.mem_of_mem_filter hmem
      rw [hl] at h2
      exact h2

theorem beforeSep_cons_ne {c : Char} {rest : List Char}
    (h : isPySpace c = false) : beforeSep (c :: rest) = c :: beforeSep rest := by
  have hc : (c = ' ') = False := by
    simp only [eq_iff_iff, iff_false]
    intro he; rw [he] at h; cases h
  have hs : sepAt (c :: rest) = false := by
    rcases rest with _ | ⟨b, bs⟩
    · rfl
    · rcases bs with _ | ⟨b2, bs2⟩
      · rfl
      · simp [sepAt, hc]
  simp only [beforeSep]
  rw [hs]
  simp

theorem merchantOf_head {c : Char} {r : List Char} (hcsp : isPySpace c = false) :
    ∃ m, merchantOf (c :: r) = some m ∧ m ≠ [] ∧ m.length ≤ 80 ∧
      m = (beforeSep (c :: r)).take 80 := by
  have hb : beforeSep (c :: r) = c :: beforeSep r := beforeSep_cons_ne hcsp
  have hlen : 0 < ((beforeSep (c :: r)).take 80).length := by
    rw [hb, List.length_take]
    simp
  have hnn : (beforeSep (c :: r)).take 80 ≠ [] := by
    intro he
    rw [he] at hlen
    simp at hlen
  have hie : ((beforeSep (c :: r)).take 80).isEmpty = false := by
    cases hb2 : ((beforeSep (c :: r)).take 80).isEmpty
    · rfl
    · exact absurd (List.isEmpty_iff.mp hb2) hnn
  refine ⟨(beforeSep (c :: r)).take 80, ?_, hnn, List.length_take_le 80 _, rfl⟩
  simp only [merchantOf]
  rw [hie]
  simp

theorem reSearchB_or (p q : List Char → Bool) (l : List Char) :
    reSearchB (fun s => p s || q s) l = (reSearchB p l || reSearchB q l) := by
  induction l with
  | nil => rfl
  | cons c rest ih =>
    have h1 : reSearchB (fun s => p s || q s) (c :: rest)
        = ((p (c :: rest) || q (c :: rest)) || reSearchB (fun s => p s || q s) rest) := rfl
    have h2 : reSearchB p (c :: rest) = (p (c :: rest) || reSearchB p rest) := rfl
    have h3 : reSearchB q (c :: rest) = (q (c :: rest) || reSearchB q rest) := rfl
    rw [h1, h2, h3, ih]
    cases p (c :: rest) <;> cases q (c :: rest) <;>
      cases reSearchB p rest <;> cases reSearchB q rest <;> rfl

theorem isEmpty_false_of_ne {l : List Char} (h : l ≠ []) : l.isEmpty = false := by
  cases hb : l.isEmpty
  · rfl
  · exact absurd (List.isEmpty_iff.mp hb) h

theorem reSearchB_or5 (p1 p2 p3 p4 p5 : List Char → Bool) (l : List Char) :
    reSearchB (fun s => p1 s || p2 s || p3 s || p4 s || p5 s) l
      = (reSearchB p1 l || reSearchB p2 l || reSearchB p3 l ||
         reSearchB p4 l || reSearchB p5 l) := by
  induction l with
  | nil => rfl
  | cons c rest ih =>
    have h0 : reSearchB (fun s => p1 s || p2 s || p3 s || p4 s || p5 s) (c :: rest)
        = ((p1 (c :: rest) || p2 (c :: rest) || p3 (c :: rest) || p4 (c :: rest) ||
            p5 (c :: rest)) ||
           reSearchB (fun s => p1 s || p2 s || p3 s || p4 s || p5 s) rest) := rfl
    have h1 : reSearchB p1 (c :: rest) = (p1 (c :: rest) || reSearchB p1 rest) := rfl
    have h2 : reSearchB p2 (c :: rest) = (p2 (c :: rest) || reSearchB p2 rest) := rfl
    have h3 : reSearchB p3 (c :: rest) = (p3 (c :: rest) || reSearchB p3 rest) := rfl
    have h4 : reSearchB p4 (c :: rest) = (p4 (c :: rest) || reSearchB p4 rest) := rfl
    have h5 : reSearchB p5 (c :: rest) = (p5 (c :: rest) || reSearchB p5 rest) := rfl
    rw [h0, h1, h2, h3, h4, h5, ih]
    cases p1 (c :: rest) <;> cases p2 (c :: rest) <;> cases p3 (c :: rest) <;>
      cases p4 (c :: rest) <;> cases p5 (c :: rest) <;>
      cases reSearchB p1 rest <;> cases reSearchB p2 rest <;>
      cases reSearchB p3 rest <;> cases reSearchB p4 rest <;>
      cases reSearchB p5 rest <;> rfl

/-! ### The claims -/

/-- C7: For every transaction payload accepted by the transaction-create
operation, the amount stored is the absolute value of the submitted amount,
so every stored `Transaction.amount` is nonnegative regardless of the
input's sign. -/
theorem create_transaction_abs_amount (p : TransactionCreate) :
    (create_transaction p).amount = |p.amount| ∧
    0 ≤ (create_transaction p).amount :=
  ⟨rfl, by
    have h : (create_transaction p).amount = |p.amount| := rfl
    rw [h]
    exact abs_nonneg p.amount⟩

/-- C8: `setup_defaults` seeds the 7 fixed categories only when the category
collection is empty and the one "Cash" account only when the account
collection is empty; called twice from the empty state it leaves exactly 7
categories and 1 account, the second call being a no-op on any state. -/
theorem setup_defaults_twice (s : Store) :
    ((setup_defaults (setup_defaults (Store.mk [] []))).category.length = 7 ∧
     (setup_defaults (setup_defaults (Store.mk [] []))).account.length = 1) ∧
    setup_defaults (setup_defaults s) = setup_defaults s := by
  constructor
  · exact ⟨rfl, rfl⟩
  · by_cases hc : s.category.length = 0 <;> by_cases ha : s.account.length = 0 <;>
      simp [setup_defaults, hc, ha, defaultCategories]

/-- C6 counterexample: the parser is not a pure function of the text alone —
on an input with no recognisable date the result embeds the processing
time, so two runs at different times differ. -/
theorem parse_not_time_invariant :
    parse_text ⟨2025, 1, 1⟩ ("hello".toList) ≠
    parse_text ⟨2025, 1, 2⟩ ("hello".toList) := by decide

/-- C6 (amended): two runs of the parse operation on the same input always
agree on amount, direction, description and merchant; they also agree on the
date — and hence return identical results — whenever a date is extracted
from the text, the date otherwise defaulting to the processing time. -/
theorem parse_time_dependence (a b : PDate) (input : List Char) :
    (parse_text a input).map ParseResult.amount
      = (parse_text b input).map ParseResult.amount ∧
    (parse_text a input).map ParseResult.direction
      = (parse_text b input).map ParseResult.direction ∧
    (parse_text a input).map ParseResult.description
      = (parse_text b input).map ParseResult.description ∧
    (parse_text a input).map ParseResult.merchant
      = (parse_text b input).map ParseResult.merchant ∧
    ((extractDate (pyStrip input)).isSome = true →
      parse_text a input = parse_text b input) := by
  unfold parse_text
  cases hie : (pyStrip input).isEmpty
  · simp only [Bool.false_eq_true, if_false]
    refine ⟨rfl, rfl, rfl, rfl, ?_⟩
    intro hs
    rcases hx : extractDate (pyStrip input) with _ | d
    · rw [hx] at hs; cases hs
    · rfl
  · simp

theorem parse_time_dependence_witness :
    parse_text ⟨2025, 1, 1⟩ ("2025-01-31".toList)
      = parse_text ⟨2026, 5, 5⟩ ("2025-01-31".toList) :=
  (parse_time_dependence ⟨2025, 1, 1⟩ ⟨2026, 5, 5⟩ ("2025-01-31".toList)).2.2.2.2
    (by decide)

/-- C1: the parse operation fails with the input-validation error exactly
when the input is empty or consists only of whitespace; every other input
yields a result and never an error. -/
theorem parse_rejects_only_blank (now : PDate) (input : List Char) :
    ((∀ c ∈ input, isPySpace c = true) →
      parse_text now input = Except.error "Text is required") ∧
    ((∃ c ∈ input, isPySpace c = false) →
      ∃ r, parse_text now input = Except.ok r) ∧
    (parse_text now input = Except.error "Text is required" →
      ∀ c ∈ input, isPySpace c = true) := by
  refine ⟨?_, ?_, ?_⟩
  · intro h
    have hs : pyStrip input = [] := (pyStrip_eq_nil_iff input).mpr h
    unfold parse_text
    rw [hs]
    rfl
  · intro h
    obtain ⟨c, hc, hcf⟩ := h
    have hs : pyStrip input ≠ [] := by
      intro he
      have h2 := (pyStrip_eq_nil_iff input).mp he c hc
      rw [h2] at hcf; cases hcf
    unfold parse_text
    rw [isEmpty_false_of_ne hs]
    simp only [Bool.false_eq_true, if_false]
    exact ⟨_, rfl⟩
  · intro h
    unfold parse_text at h
    cases hie : (pyStrip input).isEmpty
    · rw [hie] at h
      simp at h
    · exact (pyStrip_eq_nil_iff input).mp (List.isEmpty_iff.mp hie)

theorem parse_rejects_only_blank_witness :
    parse_text ⟨2025, 1, 1⟩ ("   ".toList) = Except.error "Text is required" ∧
    ∃ r, parse_text ⟨2025, 1, 1⟩ ("hi".toList) = Except.ok r :=
  ⟨(parse_rejects_only_blank ⟨2025, 1, 1⟩ ("   ".toList)).1 (by decide),
   (parse_rejects_only_blank ⟨2025, 1, 1⟩ ("hi".toList)).2.1
     ⟨'h', by decide, by decide⟩⟩

/-- C2: parsing "Salary deposit 1500.00 03/15/2025" yields direction income,
amount 1500.00 and date 2025-03-15: the slash candidate fails the day-first
format (month 15) and is accepted by the month-first format later in the
ordered format list. -/
theorem parse_salary_deposit (now : PDate) :
    ∃ r, parse_text now ("Salary deposit 1500.00 03/15/2025".toList)
        = Except.ok r ∧
      r.direction = Direction.income ∧ r.amount = 1500 ∧
      r.date = ⟨2025, 3, 15⟩ ∧
      fmtDMY ("03/15/2025".toList) = none ∧
      fmtMDY ("03/15/2025".toList) = some ⟨2025, 3, 15⟩ := by
  have hx : extractDate (pyStrip ("Salary deposit 1500.00 03/15/2025".toList))
      = some ⟨2025, 3, 15⟩ := by decide
  refine ⟨_, rfl, ?_, ?_, ?_, by decide, by decide⟩
  · show directionOf (pyStrip ("Salary deposit 1500.00 03/15/2025".toList))
        = Direction.income
    decide
  · show (amountOf (pyStrip ("Salary deposit 1500.00 03/15/2025".toList))).getD 0
        = 1500
    decide
  · show (extractDate (pyStrip ("Salary deposit 1500.00 03/15/2025".toList))).getD now
        = ⟨2025, 3, 15⟩
    rw [hx]
    rfl

/-- C3: parsing "-20.00 refund Jan 5, 2025" yields amount 20.00 (the
magnitude, never negative), direction income (the leading minus is seen by
the negativity scan and "refund" by the keyword scan), and date 2025-01-05
from the month-name form. -/
theorem parse_refund_jan (now : PDate) :
    ∃ r, parse_text now ("-20.00 refund Jan 5, 2025".toList) = Except.ok r ∧
      r.amount = 20 ∧ 0 ≤ r.amount ∧ r.direction = Direction.income ∧
      r.date = ⟨2025, 1, 5⟩ ∧
      signNegative (pyStrip ("-20.00 refund Jan 5, 2025".toList)) = true ∧
      containsCI "refund" (pyStrip ("-20.00 refund Jan 5, 2025".toList)) = true := by
  have hx : extractDate (pyStrip ("-20.00 refund Jan 5, 2025".toList))
      = some ⟨2025, 1, 5⟩ := by decide
  refine ⟨_, rfl, ?_, ?_, ?_, ?_, by decide, by decide⟩
  · show (amountOf (pyStrip ("-20.00 refund Jan 5, 2025".toList))).getD 0 = 20
    decide
  · show 0 ≤ (amountOf (pyStrip ("-20.00 refund Jan 5, 2025".toList))).getD 0
    decide
  · show directionOf (pyStrip ("-20.00 refund Jan 5, 2025".toList))
        = Direction.income
    decide
  · show (extractDate (pyStrip ("-20.00 refund Jan 5, 2025".toList))).getD now
        = ⟨2025, 1, 5⟩
    rw [hx]
    rfl

/-- C10: on "Coffee Shop - Downtown 4.50" — which contains no
negative amount and no income keyword, only the merchant separator's hyphen
preceded by whitespace — the negativity scan matches and the direction comes
out income instead of expense. -/
theorem separator_minus_income (now : PDate) :
    signNegative (pyStrip ("Coffee Shop - Downtown 4.50".toList)) = true ∧
    incomeKw (pyStrip ("Coffee Shop - Downtown 4.50".toList)) = false ∧
    ∃ r, parse_text now ("Coffee Shop - Downtown 4.50".toList) = Except.ok r ∧
      r.direction = Direction.income ∧ r.amount = mkRat 9 2 := by
  refine ⟨by decide, by decide, _, rfl, ?_, ?_⟩
  · show directionOf (pyStrip ("Coffee Shop - Downtown 4.50".toList))
        = Direction.income
    decide
  · show (amountOf (pyStrip ("Coffee Shop - Downtown 4.50".toList))).getD 0 = mkRat 9 2
    decide

/-- C4: amount extraction tries the currency-symbol pattern first and the
bare-number pattern second; the matched group has its separators stripped
and is taken in absolute value, the amount is never negative, and when
neither pattern matches the amount defaults to 0 with no error. -/
theorem amount_extraction_priority (now : PDate) (input : List Char)
    (h : pyStrip input ≠ []) :
    ∃ r, parse_text now input = Except.ok r ∧ 0 ≤ r.amount ∧
      (∀ g, reSearch amtMatch1At (pyStrip input) = some g →
        r.amount = |moneyVal (g.filter (fun c => c ≠ ','))|) ∧
      (reSearch amtMatch1At (pyStrip input) = none →
        ∀ g, reSearch amtMatch2At (pyStrip input) = some g →
          r.amount = |moneyVal (g.filter (fun c => c ≠ ','))|) ∧
      (reSearch amtMatch1At (pyStrip input) = none →
        reSearch amtMatch2At (pyStrip input) = none → r.amount = 0) := by
  have hie := isEmpty_false_of_ne h
  refine ⟨_, by unfold parse_text; rw [hie]; rfl, ?_, ?_, ?_, ?_⟩
  · show (0 : ℚ) ≤ (amountOf (pyStrip input)).getD 0
    unfold amountOf
    cases h1 : reSearch amtMatch1At (pyStrip input) with
    | some g => exact abs_nonneg _
    | none =>
      cases h2 : reSearch amtMatch2At (pyStrip input) with
      | some g => exact abs_nonneg _
      | none => exact le_refl 0
  · intro g hg
    show (amountOf (pyStrip input)).getD 0 = _
    unfold amountOf
    rw [hg]
    rfl
  · intro h1 g hg
    show (amountOf (pyStrip input)).getD 0 = _
    unfold amountOf
    rw [h1, hg]
    rfl
  · intro h1 h2
    show (amountOf (pyStrip input)).getD 0 = 0
    unfold amountOf
    rw [h1, h2]
    rfl

theorem amount_extraction_priority_witness :
    ∃ r, parse_text ⟨2025, 1, 1⟩ ("$5.00".toList) = Except.ok r ∧ 0 ≤ r.amount ∧
      (∀ g, reSearch amtMatch1At (pyStrip ("$5.00".toList)) = some g →
        r.amount = |moneyVal (g.filter (fun c => c ≠ ','))|) ∧
      (reSearch amtMatch1At (pyStrip ("$5.00".toList)) = none →
        ∀ g, reSearch amtMatch2At (pyStrip ("$5.00".toList)) = some g →
          r.amount = |moneyVal (g.filter (fun c => c ≠ ','))|) ∧
      (reSearch amtMatch1At (pyStrip ("$5.00".toList)) = none →
        reSearch amtMatch2At (pyStrip ("$5.00".toList)) = none → r.amount = 0) :=
  amount_extraction_priority ⟨2025, 1, 1⟩ ("$5.00".toList) (by decide)

/-- C5: for every accepted input the description is the first trimmed
non-blank line that survives the date/money-keyword filter (falling back to
the first non-blank line), and the merchant is the prefix of the description
before the first " - ", truncated to 80 characters. -/
theorem description_merchant_spec (now : PDate) (input : List Char)
    (h : pyStrip input ≠ []) :
    ∃ r, parse_text now input = Except.ok r ∧
      r.description = specDescription (pyStrip input) ∧
      r.merchant = some ((beforeSep r.description).take 80) := by
  have hie := isEmpty_false_of_ne h
  obtain ⟨c, r0, hst⟩ : ∃ c r0, pyStrip input = c :: r0 := by
    rcases hx : pyStrip input with _ | ⟨c, r0⟩
    · exact absurd hx h
    · exact ⟨c, r0, rfl⟩
  have hlne : pyLines (pyStrip input) ≠ [] := by
    rw [hst]
    exact pyLines_cons_ne_nil (pyStrip_head_not_space hst)
  have hpred : ∀ ln, (!codeLineDate ln && !codeLineMoney ln) = specLineKeeps ln := by
    intro ln
    unfold codeLineDate codeLineMoney specLineKeeps containsCI
    rw [reSearchB_or, reSearchB_or5]
  have hcand : candidatesOf (pyStrip input)
      = (pyLines (pyStrip input)).filter specLineKeeps := by
    unfold candidatesOf
    exact List.filter_congr (fun ln _ => hpred ln)
  refine ⟨_, by unfold parse_text; rw [hie]; rfl, ?_, ?_⟩
  · show (descMerch (pyStrip input)).1 = specDescription (pyStrip input)
    unfold descMerch specDescription
    rw [hcand]
    rcases hl : pyLines (pyStrip input) with _ | ⟨l0, ls⟩
    · rfl
    · rcases hf : (l0 :: ls).filter specLineKeeps with _ | ⟨c0, cs⟩
      · rfl
      · rfl
  · show (descMerch (pyStrip input)).2
        = some ((beforeSep ((descMerch (pyStrip input)).1)).take 80)
    obtain ⟨hmem, hdm2⟩ := descMerch_cases hlne
    obtain ⟨hdne, hdhead⟩ := mem_pyLines_shape hmem
    rcases hd : (descMerch (pyStrip input)).1 with _ | ⟨dc, dr⟩
    · exact absurd hd hdne
    · obtain ⟨m, hm, hmne, hmlen, hmeq⟩ := @merchantOf_head dc dr (hdhead hd)
      rw [hdm2, hd, hm, hmeq]

theorem description_merchant_spec_witness :
    ∃ r, parse_text ⟨2025, 1, 1⟩ ("Lunch - Cafe\nTotal $12.34".toList)
        = Except.ok r ∧
      r.description
        = specDescription (pyStrip ("Lunch - Cafe\nTotal $12.34".toList)) ∧
      r.merchant = some ((beforeSep r.description).take 80) :=
  description_merchant_spec ⟨2025, 1, 1⟩ ("Lunch - Cafe\nTotal $12.34".toList)
    (by decide)

/-- C9: every accepted input yields a non-empty description and a present,
non-empty merchant of at most 80 characters — the "merchant absent" and
"empty description" cases of the result shape are unreachable. -/
theorem parse_fields_populated (now : PDate) (input : List Char)
    (h : pyStrip input ≠ []) :
    ∃ r, parse_text now input = Except.ok r ∧ r.description ≠ [] ∧
      ∃ m, r.merchant = some m ∧ m ≠ [] ∧ m.length ≤ 80 := by
  have hie := isEmpty_false_of_ne h
  obtain ⟨c, r0, hst⟩ : ∃ c r0, pyStrip input = c :: r0 := by
    rcases hx : pyStrip input with _ | ⟨c, r0⟩
    · exact absurd hx h
    · exact ⟨c, r0, rfl⟩
  have hlne : pyLines (pyStrip input) ≠ [] := by
    rw [hst]
    exact pyLines_cons_ne_nil (pyStrip_head_not_space hst)
  obtain ⟨hmem, hdm2⟩ := descMerch_cases hlne
  obtain ⟨hdne, hdhead⟩ := mem_pyLines_shape hmem
  refine ⟨_, by unfold parse_text; rw [hie]; rfl, hdne, ?_⟩
  show ∃ m, (descMerch (pyStrip input)).2 = some m ∧ m ≠ [] ∧ m.length ≤ 80
  rcases hd : (descMerch (pyStrip input)).1 with _ | ⟨dc, dr⟩
  · exact absurd hd hdne
  · obtain ⟨m, hm, hmne, hmlen, _⟩ := @merchantOf_head dc dr (hdhead hd)
    exact ⟨m, by rw [hdm2, hd, hm], hmne, hmlen⟩

theorem parse_fields_populated_witness :
    ∃ r, parse_text ⟨2025, 1, 1⟩ ("ok".toList) = Except.ok r ∧
      r.description ≠ [] ∧
      ∃ m, r.merchant = some m ∧ m ≠ [] ∧ m.length ≤ 80 :=
  parse_fields_populated ⟨2025, 1, 1⟩ ("ok".toList) (by decide)
